import Mathlib

/-!
# Lorenz attractor viewer (`lorenz.c`): embedding and verified properties

The globals of `lorenz.c` become the fields of `State`; every C function that
touches them becomes a function `State → State`.

Modelling conventions
* `double` values are exact rationals (`ℚ`): no rounding, no overflow, no NaN
  or infinity stored in a global.  A `double` division whose divisor is zero
  is marked by `none` (`fdiv`); `some q` gives the quotient in exact
  arithmetic and is no statement that the `double` the program computes is
  finite (it is not once the trajectory has overflowed the range of `double`).
* `int` values are integers; `+`/`-` on them wrap at 32 bits (`wrapInt`), and
  `%` is C's truncating remainder (`Int.tmod`).
* `points` is declared `double points[100000][3]`: the buffer has exactly
  `capacity = 100000` rows.  A store to a row outside the array is recorded in
  the field `oob` and changes no modelled global (what it does to neighbouring
  memory depends on the layout and is outside the model).
* Calls into GLUT / OpenGL / stdio (`glutPostRedisplay`, `printf`, ...) have
  no effect on the globals and are omitted; `exit(0)` ends the run (`none`).
-/

namespace Lorenz

/-! ## Data model -/

/-- One row of `points`: the three coordinates `points[i][0..2]`. -/
structure Point where
  x : ℚ
  y : ℚ
  z : ℚ
deriving DecidableEq

/-- Number of rows in `double points[100000][3]`. -/
def capacity : Nat := 100000

/-- The global `double dt = 0.001`, which is never assigned. -/
def dt : ℚ := 1 / 1000

/-- The global variables of `lorenz.c`, plus the record `oob` of the row
indices of stores that fell outside `points`. -/
structure State where
  th : Int
  ph : Int
  axes : Int
  s : ℚ
  r : ℚ
  b : ℚ
  points : Fin capacity → Point
  maxX : ℚ
  maxY : ℚ
  maxZ : ℚ
  minX : ℚ
  minY : ℚ
  minZ : ℚ
  tick : ℚ
  direction : Int
  oob : List Nat

/-- The globals as initialised at program load (uninitialised globals are
zero). -/
def init : State where
  th := 0
  ph := 0
  axes := 1
  s := -2
  r := 35
  b := 2667 / 1000
  points := fun _ => ⟨0, 0, 0⟩
  maxX := 0
  maxY := 0
  maxZ := 0
  minX := 0
  minY := 0
  minZ := 0
  tick := -50
  direction := 0
  oob := []

/-- Result of 32-bit two's-complement `int` arithmetic. -/
def wrapInt (v : Int) : Int := (v + 2147483648) % 4294967296 - 2147483648

/-- A `double` division `a / d` in the exact model: `none` marks a zero
divisor, where IEEE arithmetic gives NaN or an infinity; otherwise `some` of
the quotient in exact arithmetic.  Non-finite operands and overflow do not
exist in exact arithmetic, so only `none` carries information about the
finiteness of the value the program computes. -/
def fdiv (a d : ℚ) : Option ℚ := if d = 0 then none else some (a / d)

/-- Load of row `i` of `points`.  Every load in the program has
`i < capacity`; the other branch is never taken. -/
def load (st : State) (i : Nat) : Point :=
  if h : i < capacity then st.points ⟨i, h⟩ else ⟨0, 0, 0⟩

/-- Row `i` of the trajectory buffer, if the buffer has such a row. -/
def row? (st : State) (i : Nat) : Option Point :=
  if h : i < capacity then some (st.points ⟨i, h⟩) else none

/-- Store of a row `points[i][0..2] = p`. -/
def store (st : State) (i : Nat) (p : Point) : State :=
  if h : i < capacity then { st with points := Function.update st.points ⟨i, h⟩ p }
  else { st with oob := st.oob ++ [i] }

/-! ## `calculateMaxMin` -/

/-- Body of the loop of `calculateMaxMin` at index `i`. -/
def calculateMaxMinBody (st : State) (i : Nat) : State :=
  let x := (load st i).x
  let y := (load st i).y
  let z := (load st i).z
  let st := if x < st.minX then { st with minX := x } else st
  let st := if x > st.maxX then { st with maxX := x } else st
  let st := if y < st.minY then { st with minY := y } else st
  let st := if y > st.maxY then { st with maxY := y } else st
  let st := if z < st.minZ then { st with minZ := z } else st
  let st := if z > st.maxZ then { st with maxZ := z } else st
  st

/-- Iterations `i = 0, ..., n - 1` of `for (i = 0; i < n; i++)` in
`calculateMaxMin`. -/
def calculateMaxMinLoop : Nat → State → State
  | 0, st => st
  | n + 1, st => calculateMaxMinBody (calculateMaxMinLoop n st) n

/-- The function `calculateMaxMin()`. -/
def calculateMaxMin (st : State) : State :=
  let st := { st with maxX := 0, maxY := 0, maxZ := 0 }
  let st := { st with minX := 99999, minY := 99999, minZ := 99999 }
  calculateMaxMinLoop 99999 st

/-! ## `lorenzEquation` -/

/-- The three assignments to `points[i + 1]` as a function of the row
`(x, y, z)` read from `points[i]`. -/
def eulerStep (s r b : ℚ) (p : Point) : Point :=
  ⟨p.x + (s * (p.y - p.x)) * dt,
   p.y + (p.x * (r - p.z) - p.y) * dt,
   p.z + (p.x * p.y - b * p.z) * dt⟩

/-- Body of the loop of `lorenzEquation` at index `i`. -/
def lorenzBody (s r b : ℚ) (st : State) (i : Nat) : State :=
  store st (i + 1) (eulerStep s r b (load st i))

/-- Iterations `i = 0, ..., n - 1` of `for (i = 0; i < n; i++)` in
`lorenzEquation`. -/
def lorenzLoop (s r b : ℚ) : Nat → State → State
  | 0, st => st
  | n + 1, st => lorenzBody s r b (lorenzLoop s r b n st) n

/-- The seed written to `points[0]`. -/
def seed : Point := ⟨1 / 100, 1 / 100, 1 / 100⟩

/-- The function `lorenzEquation(s, r, b)`. -/
def lorenzEquation (s r b : ℚ) (st : State) : State :=
  let st := store st 0 seed
  let st := lorenzLoop s r b 100000 st
  calculateMaxMin st

/-! ## `normalizeColor` -/

/-- The function `normalizeColor(x, y, z, tick)`: the three arguments it
passes to `glColor3d`, each `none` when its computation divides by zero and
otherwise its value in exact arithmetic. -/
def normalizeColor (st : State) (x y z tick : ℚ) : Option ℚ × Option ℚ × Option ℚ :=
  let newX := fdiv (x - st.minX) (st.maxX - st.minX)
  let newY := fdiv (y - st.minY) (st.maxY - st.minY)
  let newZ := fdiv (z - st.minZ) (st.maxZ - st.minZ)
  let animatedX := newX.map fun v => (v * 100 + tick) / 100
  let animatedY := newY.map fun v => (v * 100 + tick) / 100
  let animatedZ := newZ.map fun v => (v * 100 + tick) / 100
  (animatedX, animatedY, animatedZ)

/-! ## Event handlers -/

/-- The function `recalculate()`. -/
def recalculate (st : State) : State :=
  lorenzEquation st.s st.r st.b st

/-- The function `key(ch, x, y)`; `none` is `exit(0)`. -/
def key (ch : Char) (_x _y : Int) (st : State) : Option State :=
  if ch = Char.ofNat 27 then none
  else if ch = 'S' then some (recalculate { st with s := st.s + 1 })
  else if ch = 's' then some (recalculate { st with s := st.s - 1 })
  else if ch = 'B' then some (recalculate { st with b := st.b + 1 })
  else if ch = 'b' then some (recalculate { st with b := st.b - 1 })
  else if ch = 'R' then some (recalculate { st with r := st.r + 1 })
  else if ch = 'r' then some (recalculate { st with r := st.r - 1 })
  else if ch = 'a' then some { st with axes := Int.tmod (wrapInt (st.axes + 1)) 2 }
  else if ch = '0' then some { st with th := 0 }
  else if ch = 'q' then
    let st := lorenzEquation 10 28 (2667 / 1000) st
    let st := { st with s := 10 }
    let st := { st with r := 28 }
    let st := { st with b := 2667 / 1000 }
    some (recalculate st)
  else some st

/-- GLUT's code for the left arrow key (`GL/glut.h`). -/
def GLUT_KEY_LEFT : Int := 100
/-- GLUT's code for the up arrow key (`GL/glut.h`). -/
def GLUT_KEY_UP : Int := 101
/-- GLUT's code for the right arrow key (`GL/glut.h`). -/
def GLUT_KEY_RIGHT : Int := 102
/-- GLUT's code for the down arrow key (`GL/glut.h`). -/
def GLUT_KEY_DOWN : Int := 103

/-- The function `special(key, x, y)`. -/
def special (k : Int) (_x _y : Int) (st : State) : State :=
  let st :=
    if k = GLUT_KEY_RIGHT then { st with th := wrapInt (st.th + 5) }
    else if k = GLUT_KEY_LEFT then { st with th := wrapInt (st.th - 5) }
    else if k = GLUT_KEY_UP then { st with ph := wrapInt (st.ph + 5) }
    else if k = GLUT_KEY_DOWN then { st with ph := wrapInt (st.ph - 5) }
    else st
  let st := { st with th := Int.tmod st.th 360 }
  let st := { st with ph := Int.tmod st.ph 360 }
  st

/-- The function `idle()`. -/
def idle (st : State) : State :=
  let st := if st.tick > 50 then { st with direction := 1 } else st
  let st := if st.tick < -50 then { st with direction := 0 } else st
  let st := if st.direction = 0 then { st with tick := st.tick + 1 / 2 } else st
  let st := if st.direction = 1 then { st with tick := st.tick - 1 / 2 } else st
  { st with th := wrapInt (st.th + 1) }

/-- The state in which `main` enters `glutMainLoop`: `lorenzEquation(s, r, b)`
on the initial globals. -/
def main : State :=
  lorenzEquation init.s init.r init.b init

/-- The callbacks GLUT can deliver that change globals. -/
inductive Event where
  | key (ch : Char) (x y : Int)
  | special (k : Int) (x y : Int)
  | idle

/-- One callback invocation; `none` when the program exits. -/
def step (st : State) : Event → Option State
  | .key ch x y => key ch x y st
  | .special k x y => some (special k x y st)
  | .idle => some (idle st)

/-- The events delivered in order from `st`; `none` when the program
exited on the way. -/
def run (st : State) : List Event → Option State
  | [] => some st
  | e :: es => (step st e).bind fun st => run st es

/-- An event whose handler calls `lorenzEquation`: the keys S, s, B, b, R, r
and q. -/
def Event.changesParameters : Event → Bool
  | .key ch _ _ => ch = 'S' || ch = 's' || ch = 'B' || ch = 'b' || ch = 'R' || ch = 'r' || ch = 'q'
  | _ => false

/-! ## Auxiliary definitions used in the statements and proofs -/

/-- The phase is a half-integer `k / 2`; going forward `k` ranges over
`-100 .. 101`, going backward over `-101 .. 100`. -/
def TickInv (st : State) : Prop :=
  ∃ k : Int, st.tick = (k : ℚ) / 2 ∧
    ((st.direction = 0 ∧ -100 ≤ k ∧ k ≤ 101) ∨ (st.direction = 1 ∧ -101 ≤ k ∧ k ≤ 100))

/-- The six bounds `(minX, maxX, minY, maxY, minZ, maxZ)` of a state. -/
def bounds (st : State) : ℚ × ℚ × ℚ × ℚ × ℚ × ℚ :=
  (st.minX, st.maxX, st.minY, st.maxY, st.minZ, st.maxZ)

/-- The seed advanced `j` times by `eulerStep`. -/
def orbit (s r b : ℚ) (j : Nat) : Point :=
  (eulerStep s r b)^[j] seed

/-- The buffer holds the integration of the current `(s, r, b)` and the six
bounds are those `calculateMaxMin` computes from the buffer. -/
def InLockstep (st : State) : Prop :=
  (∀ j, j < capacity → load st j = orbit st.s st.r st.b j) ∧
    bounds st = bounds (calculateMaxMin st)

/-- Running minimum of `f 0, ..., f (n - 1)` from the start value `m`, updated
as in `if (x < minX) minX = x`. -/
def scanMin (f : Nat → ℚ) : Nat → ℚ → ℚ
  | 0, m => m
  | n + 1, m => if f n < scanMin f n m then f n else scanMin f n m

/-- Running maximum of `f 0, ..., f (n - 1)` from the start value `m`, updated
as in `if (x > maxX) maxX = x`. -/
def scanMax (f : Nat → ℚ) : Nat → ℚ → ℚ
  | 0, m => m
  | n + 1, m => if f n > scanMax f n m then f n else scanMax f n m

/-! ## Integer helpers -/

theorem wrapInt_of_fits (v : Int) (h1 : -2147483648 ≤ v) (h2 : v < 2147483648) :
    wrapInt v = v := by
  unfold wrapInt
  omega

theorem tmod_360_bounds (a : Int) :
    -360 < Int.tmod a 360 ∧ Int.tmod a 360 < 360 ∧
      (0 ≤ a → 0 ≤ Int.tmod a 360) ∧ (a ≤ 0 → Int.tmod a 360 ≤ 0) := by
  have hdef := Int.tmod_def a 360
  rcases Int.le_total 0 a with h | h
  · have hd : a.tdiv 360 = a / 360 := Int.tdiv_eq_ediv h (by decide)
    have := Int.emod_def a 360
    rw [hd] at hdef
    omega
  · obtain ⟨c, hc⟩ : ∃ c : Int, a = -c := ⟨-a, by omega⟩
    have hc0 : 0 ≤ c := by omega
    have hd : c.tdiv 360 = c / 360 := Int.tdiv_eq_ediv hc0 (by decide)
    have h2 : (-c).tdiv 360 = -(c.tdiv 360) := Int.neg_tdiv c 360
    rw [hc, h2, hd] at hdef
    rw [hc]
    omega

/-! ## The animation phase (`idle`) -/

theorem idle_direction (st : State) :
    (idle st).direction =
      if st.tick < -50 then 0 else if st.tick > 50 then 1 else st.direction := by
  unfold idle
  by_cases h1 : st.tick > 50 <;> by_cases h2 : st.tick < -50 <;>
    by_cases h3 : st.direction = 0 <;> by_cases h4 : st.direction = 1 <;>
    simp [h1, h2, h3, h4]

theorem idle_tick (st : State) :
    (idle st).tick =
      if (idle st).direction = 0 then st.tick + 1 / 2
      else if (idle st).direction = 1 then st.tick - 1 / 2 else st.tick := by
  rw [idle_direction]
  unfold idle
  by_cases h1 : st.tick > 50 <;> by_cases h2 : st.tick < -50 <;>
    by_cases h3 : st.direction = 0 <;> by_cases h4 : st.direction = 1 <;>
    simp [h1, h2, h3, h4]

theorem idle_TickInv (st : State) (h : TickInv st) : TickInv (idle st) := by
  obtain ⟨k, hk, hdir⟩ := h
  have hlt : st.tick < -50 ↔ k < -100 := by
    rw [hk, div_lt_iff₀ (by norm_num : (0 : ℚ) < 2)]
    have : (-50 : ℚ) * 2 = ((-100 : Int) : ℚ) := by norm_num
    rw [this, Int.cast_lt]
  have hgt : st.tick > 50 ↔ 100 < k := by
    rw [gt_iff_lt, hk, lt_div_iff₀ (by norm_num : (0 : ℚ) < 2)]
    have : (50 : ℚ) * 2 = ((100 : Int) : ℚ) := by norm_num
    rw [this, Int.cast_lt]
  have hd := idle_direction st
  have ht := idle_tick st
  rcases hdir with ⟨hd0, hlo, hhi⟩ | ⟨hd1, hlo, hhi⟩
  · by_cases hk101 : k = 101
    · have h1 : st.tick > 50 := hgt.mpr (by omega)
      have h2 : ¬ st.tick < -50 := fun h => by have := hlt.mp h; omega
      rw [if_neg h2, if_pos h1] at hd
      rw [hd] at ht
      simp only [one_ne_zero, if_false, if_true] at ht
      exact ⟨100, by rw [ht, hk, hk101]; norm_num, Or.inr ⟨hd, by omega, by omega⟩⟩
    · have h1 : ¬ st.tick > 50 := fun h => by have := hgt.mp h; omega
      have h2 : ¬ st.tick < -50 := fun h => by have := hlt.mp h; omega
      rw [if_neg h2, if_neg h1, hd0] at hd
      rw [hd] at ht
      simp only [if_true] at ht
      exact ⟨k + 1, by rw [ht, hk]; push_cast; ring, Or.inl ⟨hd, by omega, by omega⟩⟩
  · by_cases hk101 : k = -101
    · have h2 : st.tick < -50 := hlt.mpr (by omega)
      rw [if_pos h2] at hd
      rw [hd] at ht
      simp only [if_true] at ht
      exact ⟨-100, by rw [ht, hk, hk101]; norm_num, Or.inl ⟨hd, by omega, by omega⟩⟩
    · have h1 : ¬ st.tick > 50 := fun h => by have := hgt.mp h; omega
      have h2 : ¬ st.tick < -50 := fun h => by have := hlt.mp h; omega
      rw [if_neg h2, if_neg h1, hd1] at hd
      rw [hd] at ht
      simp only [one_ne_zero, if_false, if_true] at ht
      exact ⟨k - 1, by rw [ht, hk]; push_cast; ring, Or.inr ⟨hd, by omega, by omega⟩⟩

theorem iterate_idle_TickInv (st : State) (h : TickInv st) (n : Nat) :
    TickInv (idle^[n] st) := by
  induction n with
  | zero => exact h
  | succ n ih =>
    rw [Function.iterate_succ_apply']
    exact idle_TickInv _ ih

theorem TickInv_of_start (st : State) (ht : st.tick = -50) (hd : st.direction = 0) :
    TickInv st :=
  ⟨-100, by rw [ht]; norm_num, Or.inl ⟨hd, by omega, by omega⟩⟩

theorem TickInv_range (st : State) (h : TickInv st) :
    -101 / 2 ≤ st.tick ∧ st.tick ≤ 101 / 2 := by
  obtain ⟨k, hk, hdir⟩ := h
  have h1 : ((-101 : Int) : ℚ) ≤ (k : ℚ) := by
    rw [Int.cast_le]; rcases hdir with ⟨_, _, _⟩ | ⟨_, _, _⟩ <;> omega
  have h2 : (k : ℚ) ≤ ((101 : Int) : ℚ) := by
    rw [Int.cast_le]; rcases hdir with ⟨_, _, _⟩ | ⟨_, _, _⟩ <;> omega
  push_cast at h1 h2
  rw [hk]
  constructor <;> linarith

theorem TickInv_flip (st : State) (h : TickInv st) :
    (idle st).direction ≠ st.direction ↔ (st.tick > 50 ∨ st.tick < -50) := by
  obtain ⟨k, hk, hdir⟩ := h
  have hlt : st.tick < -50 ↔ k < -100 := by
    rw [hk, div_lt_iff₀ (by norm_num : (0 : ℚ) < 2)]
    have : (-50 : ℚ) * 2 = ((-100 : Int) : ℚ) := by norm_num
    rw [this, Int.cast_lt]
  have hgt : st.tick > 50 ↔ 100 < k := by
    rw [gt_iff_lt, hk, lt_div_iff₀ (by norm_num : (0 : ℚ) < 2)]
    have : (50 : ℚ) * 2 = ((100 : Int) : ℚ) := by norm_num
    rw [this, Int.cast_lt]
  rw [idle_direction]
  rcases hdir with ⟨hd0, hlo, hhi⟩ | ⟨hd1, hlo, hhi⟩
  · have h2 : ¬ st.tick < -50 := fun h => by have := hlt.mp h; omega
    rw [hd0, if_neg h2]
    by_cases h1 : st.tick > 50
    · rw [if_pos h1]
      exact ⟨fun _ => Or.inl h1, fun _ => by decide⟩
    · rw [if_neg h1]
      exact ⟨fun h => absurd rfl h, fun h => h.elim (fun h => absurd h h1) (fun h => absurd h h2)⟩
  · have h1 : ¬ st.tick > 50 := fun h => by have := hgt.mp h; omega
    rw [hd1]
    by_cases h2 : st.tick < -50
    · rw [if_pos h2]
      exact ⟨fun _ => Or.inr h2, fun _ => by decide⟩
    · rw [if_neg h2, if_neg h1]
      exact ⟨fun h => absurd rfl h, fun h => h.elim (fun h => absurd h h1) (fun h => absurd h h2)⟩

theorem iterate_idle_forward (st : State) (ht : st.tick = -50) (hd : st.direction = 0)
    (k : Nat) (hk : k ≤ 201) :
    (idle^[k] st).tick = -50 + (k : ℚ) / 2 ∧ (idle^[k] st).direction = 0 := by
  induction k with
  | zero => simp [ht, hd]
  | succ k ih =>
    obtain ⟨iht, ihd⟩ := ih (by omega)
    have hk1 : (k : ℚ) ≤ 200 := by exact_mod_cast (by omega : k ≤ 200)
    have hk0 : (0 : ℚ) ≤ (k : ℚ) := Nat.cast_nonneg k
    rw [Function.iterate_succ_apply']
    have hdir := idle_direction (idle^[k] st)
    have h1 : ¬ (idle^[k] st).tick > 50 := by rw [iht]; intro h; linarith
    have h2 : ¬ (idle^[k] st).tick < -50 := by rw [iht]; intro h; linarith
    rw [if_neg h2, if_neg h1, ihd] at hdir
    have htk := idle_tick (idle^[k] st)
    rw [hdir] at htk
    simp only [if_true] at htk
    refine ⟨?_, hdir⟩
    rw [htk, iht]
    push_cast
    ring

/-! ## Claims about the view state -/

/-- C5 (as amended): from any state with `tick = -50` and `direction = 0`,
after any number `n` of `idle()` steps the phase satisfies
`-50.5 ≤ tick ≤ 50.5`, and the next `idle()` changes `direction` exactly when
it is entered with `tick > 50` or `tick < -50`. -/
theorem idle_phase_bounds (st : State) (ht : st.tick = -50) (hd : st.direction = 0) (n : Nat) :
    -101 / 2 ≤ (idle^[n] st).tick ∧ (idle^[n] st).tick ≤ 101 / 2 ∧
      ((idle (idle^[n] st)).direction ≠ (idle^[n] st).direction ↔
        ((idle^[n] st).tick > 50 ∨ (idle^[n] st).tick < -50)) := by
  have hinv := iterate_idle_TickInv st (TickInv_of_start st ht hd) n
  exact ⟨(TickInv_range _ hinv).1, (TickInv_range _ hinv).2, TickInv_flip _ hinv⟩

/-- Witness for C5: the initial globals, three `idle()` steps. -/
theorem idle_phase_bounds_witness :
    init.tick = -50 ∧ init.direction = 0 ∧
      (-101 / 2 ≤ (idle^[3] init).tick ∧ (idle^[3] init).tick ≤ 101 / 2 ∧
        ((idle (idle^[3] init)).direction ≠ (idle^[3] init).direction ↔
          ((idle^[3] init).tick > 50 ∨ (idle^[3] init).tick < -50))) :=
  ⟨rfl, rfl, idle_phase_bounds init rfl rfl 3⟩

/-- C5 (as stated) fails: after 201 `idle()` steps from the initial globals the
phase is `50.5`, outside `[-50, 50]`. -/
theorem idle_phase_exceeds_50 :
    (idle^[201] init).tick = 101 / 2 ∧
      ¬ (-50 ≤ (idle^[201] init).tick ∧ (idle^[201] init).tick ≤ 50) := by
  have h := (iterate_idle_forward init rfl rfl 201 (le_refl _)).1
  have h2 : (idle^[201] init).tick = 101 / 2 := by rw [h]; norm_num
  refine ⟨h2, ?_⟩
  rw [h2]
  norm_num

/-- C10: for every state, `special()` adds 5 to `th` on the right arrow,
subtracts 5 on the left arrow (`ph`: up adds 5, down subtracts 5; exactly so
whenever the sum fits an `int`), then reduces both `th` and `ph` with the
truncating remainder modulo 360; the results keep the sign of the operand and
lie strictly between -360 and 360.  Right from 358 gives 3; left from 0 gives
-5. -/
theorem special_angles (st : State) (x y : Int) :
    ((special GLUT_KEY_RIGHT x y st).th = Int.tmod (wrapInt (st.th + 5)) 360 ∧
      (special GLUT_KEY_RIGHT x y st).ph = Int.tmod st.ph 360) ∧
    ((special GLUT_KEY_LEFT x y st).th = Int.tmod (wrapInt (st.th - 5)) 360 ∧
      (special GLUT_KEY_LEFT x y st).ph = Int.tmod st.ph 360) ∧
    ((special GLUT_KEY_UP x y st).ph = Int.tmod (wrapInt (st.ph + 5)) 360 ∧
      (special GLUT_KEY_UP x y st).th = Int.tmod st.th 360) ∧
    ((special GLUT_KEY_DOWN x y st).ph = Int.tmod (wrapInt (st.ph - 5)) 360 ∧
      (special GLUT_KEY_DOWN x y st).th = Int.tmod st.th 360) ∧
    (-2147483648 ≤ st.th - 5 ∧ st.th + 5 < 2147483648 →
      (special GLUT_KEY_RIGHT x y st).th = Int.tmod (st.th + 5) 360 ∧
      (special GLUT_KEY_LEFT x y st).th = Int.tmod (st.th - 5) 360) ∧
    (-2147483648 ≤ st.ph - 5 ∧ st.ph + 5 < 2147483648 →
      (special GLUT_KEY_UP x y st).ph = Int.tmod (st.ph + 5) 360 ∧
      (special GLUT_KEY_DOWN x y st).ph = Int.tmod (st.ph - 5) 360) ∧
    (∀ k : Int, -360 < (special k x y st).th ∧ (special k x y st).th < 360 ∧
      -360 < (special k x y st).ph ∧ (special k x y st).ph < 360) ∧
    ((0 ≤ wrapInt (st.th + 5) → 0 ≤ (special GLUT_KEY_RIGHT x y st).th) ∧
      (wrapInt (st.th + 5) ≤ 0 → (special GLUT_KEY_RIGHT x y st).th ≤ 0) ∧
      (0 ≤ wrapInt (st.th - 5) → 0 ≤ (special GLUT_KEY_LEFT x y st).th) ∧
      (wrapInt (st.th - 5) ≤ 0 → (special GLUT_KEY_LEFT x y st).th ≤ 0) ∧
      (0 ≤ wrapInt (st.ph + 5) → 0 ≤ (special GLUT_KEY_UP x y st).ph) ∧
      (wrapInt (st.ph + 5) ≤ 0 → (special GLUT_KEY_UP x y st).ph ≤ 0) ∧
      (0 ≤ wrapInt (st.ph - 5) → 0 ≤ (special GLUT_KEY_DOWN x y st).ph) ∧
      (wrapInt (st.ph - 5) ≤ 0 → (special GLUT_KEY_DOWN x y st).ph ≤ 0)) ∧
    (special GLUT_KEY_RIGHT x y { st with th := 358 }).th = 3 ∧
    (special GLUT_KEY_LEFT x y { st with th := 0 }).th = -5 := by
  have hR : (special GLUT_KEY_RIGHT x y st).th = Int.tmod (wrapInt (st.th + 5)) 360 ∧
      (special GLUT_KEY_RIGHT x y st).ph = Int.tmod st.ph 360 := by
    simp [special, GLUT_KEY_RIGHT]
  have hL : (special GLUT_KEY_LEFT x y st).th = Int.tmod (wrapInt (st.th - 5)) 360 ∧
      (special GLUT_KEY_LEFT x y st).ph = Int.tmod st.ph 360 := by
    simp [special, GLUT_KEY_LEFT, GLUT_KEY_RIGHT]
  have hU : (special GLUT_KEY_UP x y st).ph = Int.tmod (wrapInt (st.ph + 5)) 360 ∧
      (special GLUT_KEY_UP x y st).th = Int.tmod st.th 360 := by
    simp [special, GLUT_KEY_LEFT, GLUT_KEY_RIGHT, GLUT_KEY_UP]
  have hD : (special GLUT_KEY_DOWN x y st).ph = Int.tmod (wrapInt (st.ph - 5)) 360 ∧
      (special GLUT_KEY_DOWN x y st).th = Int.tmod st.th 360 := by
    simp [special, GLUT_KEY_LEFT, GLUT_KEY_RIGHT, GLUT_KEY_UP, GLUT_KEY_DOWN]
  refine ⟨hR, hL, hU, hD, ?_, ?_, ?_, ?_, ?_, ?_⟩
  · rintro ⟨h1, h2⟩
    rw [hR.1, hL.1, wrapInt_of_fits _ (by omega) (by omega),
      wrapInt_of_fits _ (by omega) (by omega)]
    exact ⟨rfl, rfl⟩
  · rintro ⟨h1, h2⟩
    rw [hU.1, hD.1, wrapInt_of_fits _ (by omega) (by omega),
      wrapInt_of_fits _ (by omega) (by omega)]
    exact ⟨rfl, rfl⟩
  · intro k
    have hth : ∃ a, (special k x y st).th = Int.tmod a 360 := ⟨_, rfl⟩
    have hph : ∃ a, (special k x y st).ph = Int.tmod a 360 := ⟨_, rfl⟩
    obtain ⟨a, ha⟩ := hth
    obtain ⟨c, hc⟩ := hph
    rw [ha, hc]
    exact ⟨(tmod_360_bounds a).1, (tmod_360_bounds a).2.1, (tmod_360_bounds c).1,
      (tmod_360_bounds c).2.1⟩
  · rw [hR.1, hL.1, hU.1, hD.1]
    exact ⟨(tmod_360_bounds _).2.2.1, (tmod_360_bounds _).2.2.2,
      (tmod_360_bounds _).2.2.1, (tmod_360_bounds _).2.2.2,
      (tmod_360_bounds _).2.2.1, (tmod_360_bounds _).2.2.2,
      (tmod_360_bounds _).2.2.1, (tmod_360_bounds _).2.2.2⟩
  · simp [special, GLUT_KEY_RIGHT, wrapInt]
    decide
  · simp [special, GLUT_KEY_LEFT, GLUT_KEY_RIGHT, wrapInt]
    decide

/-! ## The buffer: `load`, `store`, `row?` -/

theorem row?_of_lt (st : State) (i : Nat) (h : i < capacity) :
    row? st i = some (load st i) := by
  simp [row?, load, h]

theorem row?_of_ge (st : State) (i : Nat) (h : capacity ≤ i) : row? st i = none := by
  simp [row?, Nat.not_lt.mpr h]

theorem load_store (st : State) (i j : Nat) (p : Point) (hj : j < capacity) :
    load (store st i p) j = if j = i then p else load st j := by
  unfold load store
  by_cases hi : i < capacity
  · by_cases hji : j = i
    · subst hji
      simp [hj]
    · have : (⟨j, hj⟩ : Fin capacity) ≠ ⟨i, hi⟩ := fun h => hji (Fin.mk.inj_iff.mp h)
      simp [hi, hj, hji, Function.update_noteq this]
  · have hji : j ≠ i := fun h => hi (h ▸ hj)
    simp [hi, hj, hji]

theorem store_oob_of_lt (st : State) (i : Nat) (p : Point) (h : i < capacity) :
    (store st i p).oob = st.oob := by
  simp [store, h]

theorem store_oob_of_ge (st : State) (i : Nat) (p : Point) (h : capacity ≤ i) :
    (store st i p).oob = st.oob ++ [i] := by
  simp [store, Nat.not_lt.mpr h]

theorem store_points_of_ge (st : State) (i : Nat) (p : Point) (h : capacity ≤ i) :
    (store st i p).points = st.points := by
  simp [store, Nat.not_lt.mpr h]

/-- Everything but `points` and `oob`. -/
theorem store_frame (st : State) (i : Nat) (p : Point) :
    (store st i p).th = st.th ∧ (store st i p).ph = st.ph ∧ (store st i p).axes = st.axes ∧
    (store st i p).s = st.s ∧ (store st i p).r = st.r ∧ (store st i p).b = st.b ∧
    (store st i p).tick = st.tick ∧ (store st i p).direction = st.direction ∧
    bounds (store st i p) = bounds st := by
  unfold store bounds
  by_cases hi : i < capacity <;> simp [hi]

theorem points_eq_of_load (a c : State) (h : ∀ j, j < capacity → load a j = load c j) :
    a.points = c.points := by
  funext ⟨j, hj⟩
  have := h j hj
  simpa [load, hj] using this

theorem load_congr (a c : State) (h : a.points = c.points) (j : Nat) : load a j = load c j := by
  unfold load
  rw [h]

/-! ## The integration loop -/

theorem lorenzLoop_frame (s r b : ℚ) (n : Nat) (st : State) :
    (lorenzLoop s r b n st).th = st.th ∧ (lorenzLoop s r b n st).ph = st.ph ∧
    (lorenzLoop s r b n st).axes = st.axes ∧
    (lorenzLoop s r b n st).s = st.s ∧ (lorenzLoop s r b n st).r = st.r ∧
    (lorenzLoop s r b n st).b = st.b ∧
    (lorenzLoop s r b n st).tick = st.tick ∧
    (lorenzLoop s r b n st).direction = st.direction ∧
    bounds (lorenzLoop s r b n st) = bounds st := by
  induction n with
  | zero => simp [lorenzLoop]
  | succ n ih =>
    have h := store_frame (lorenzLoop s r b n st) (n + 1)
      (eulerStep s r b (load (lorenzLoop s r b n st) n))
    simp only [lorenzLoop, lorenzBody]
    obtain ⟨h1, h2, h3, h4, h5, h6, h7, h8, h9⟩ := h
    obtain ⟨i1, i2, i3, i4, i5, i6, i7, i8, i9⟩ := ih
    exact ⟨h1.trans i1, h2.trans i2, h3.trans i3, h4.trans i4, h5.trans i5, h6.trans i6,
      h7.trans i7, h8.trans i8, h9.trans i9⟩

/-- After `n ≤ capacity` iterations from a buffer whose row 0 is the seed,
every row `j ≤ n` of the buffer holds the `j`-th Euler iterate of the seed. -/
theorem lorenzLoop_load (s r b : ℚ) (st : State) (h0 : load st 0 = seed) (n : Nat)
    (hn : n ≤ capacity) (j : Nat) (hj : j < capacity) (hjn : j ≤ n) :
    load (lorenzLoop s r b n st) j = orbit s r b j := by
  induction n generalizing j with
  | zero =>
    have : j = 0 := by omega
    subst this
    simpa [lorenzLoop, orbit] using h0
  | succ n ih =>
    simp only [lorenzLoop, lorenzBody]
    rw [load_store _ _ _ _ hj]
    by_cases hjn1 : j = n + 1
    · rw [if_pos hjn1, ih (by omega) n (by omega) (le_refl n), hjn1]
      simp only [orbit, Function.iterate_succ_apply']
    · rw [if_neg hjn1]
      exact ih (by omega) j hj (by omega)

/-- Rows beyond the last one written are left as they were. -/
theorem lorenzLoop_load_above (s r b : ℚ) (st : State) (n : Nat) (j : Nat)
    (hj : j < capacity) (hjn : n < j) :
    load (lorenzLoop s r b n st) j = load st j := by
  induction n with
  | zero => simp [lorenzLoop]
  | succ n ih =>
    simp only [lorenzLoop, lorenzBody]
    rw [load_store _ _ _ _ hj, if_neg (by omega)]
    exact ih (by omega)

theorem lorenzLoop_oob (s r b : ℚ) (st : State) (n : Nat) (hn : n < capacity) :
    (lorenzLoop s r b n st).oob = st.oob := by
  induction n with
  | zero => simp [lorenzLoop]
  | succ n ih =>
    simp only [lorenzLoop, lorenzBody]
    rw [store_oob_of_lt _ _ _ hn]
    exact ih (by omega)

theorem lorenzLoop_succ (s r b : ℚ) (n : Nat) (st : State) :
    lorenzLoop s r b (n + 1) st =
      store (lorenzLoop s r b n st) (n + 1) (eulerStep s r b (load (lorenzLoop s r b n st) n)) :=
  rfl

/-! ## The bounds scan -/

theorem calculateMaxMinBody_bounds (st : State) (i : Nat) :
    (calculateMaxMinBody st i).minX =
      (if (load st i).x < st.minX then (load st i).x else st.minX) ∧
    (calculateMaxMinBody st i).maxX =
      (if (load st i).x > st.maxX then (load st i).x else st.maxX) ∧
    (calculateMaxMinBody st i).minY =
      (if (load st i).y < st.minY then (load st i).y else st.minY) ∧
    (calculateMaxMinBody st i).maxY =
      (if (load st i).y > st.maxY then (load st i).y else st.maxY) ∧
    (calculateMaxMinBody st i).minZ =
      (if (load st i).z < st.minZ then (load st i).z else st.minZ) ∧
    (calculateMaxMinBody st i).maxZ =
      (if (load st i).z > st.maxZ then (load st i).z else st.maxZ) := by
  unfold calculateMaxMinBody
  by_cases h1 : (load st i).x < st.minX <;> by_cases h2 : (load st i).x > st.maxX <;>
    by_cases h3 : (load st i).y < st.minY <;> by_cases h4 : (load st i).y > st.maxY <;>
    by_cases h5 : (load st i).z < st.minZ <;> by_cases h6 : (load st i).z > st.maxZ <;>
    simp [h1, h2, h3, h4, h5, h6]

theorem calculateMaxMinBody_frame (st : State) (i : Nat) :
    (calculateMaxMinBody st i).th = st.th ∧ (calculateMaxMinBody st i).ph = st.ph ∧
    (calculateMaxMinBody st i).axes = st.axes ∧
    (calculateMaxMinBody st i).s = st.s ∧ (calculateMaxMinBody st i).r = st.r ∧
    (calculateMaxMinBody st i).b = st.b ∧
    (calculateMaxMinBody st i).tick = st.tick ∧
    (calculateMaxMinBody st i).direction = st.direction ∧
    (calculateMaxMinBody st i).points = st.points ∧
    (calculateMaxMinBody st i).oob = st.oob := by
  unfold calculateMaxMinBody
  by_cases h1 : (load st i).x < st.minX <;> by_cases h2 : (load st i).x > st.maxX <;>
    by_cases h3 : (load st i).y < st.minY <;> by_cases h4 : (load st i).y > st.maxY <;>
    by_cases h5 : (load st i).z < st.minZ <;> by_cases h6 : (load st i).z > st.maxZ <;>
    simp [h1, h2, h3, h4, h5, h6]

theorem calculateMaxMinLoop_frame (n : Nat) (st : State) :
    (calculateMaxMinLoop n st).th = st.th ∧ (calculateMaxMinLoop n st).ph = st.ph ∧
    (calculateMaxMinLoop n st).axes = st.axes ∧
    (calculateMaxMinLoop n st).s = st.s ∧ (calculateMaxMinLoop n st).r = st.r ∧
    (calculateMaxMinLoop n st).b = st.b ∧
    (calculateMaxMinLoop n st).tick = st.tick ∧
    (calculateMaxMinLoop n st).direction = st.direction ∧
    (calculateMaxMinLoop n st).points = st.points ∧
    (calculateMaxMinLoop n st).oob = st.oob := by
  induction n with
  | zero => simp [calculateMaxMinLoop]
  | succ n ih =>
    simp only [calculateMaxMinLoop]
    obtain ⟨h1, h2, h3, h4, h5, h6, h7, h8, h9, h10⟩ :=
      calculateMaxMinBody_frame (calculateMaxMinLoop n st) n
    obtain ⟨i1, i2, i3, i4, i5, i6, i7, i8, i9, i10⟩ := ih
    exact ⟨h1.trans i1, h2.trans i2, h3.trans i3, h4.trans i4, h5.trans i5, h6.trans i6,
      h7.trans i7, h8.trans i8, h9.trans i9, h10.trans i10⟩

/-- The six accumulators after `n` iterations are the running minima and
maxima of the coordinates of rows `0 .. n - 1`. -/
theorem calculateMaxMinLoop_scan (n : Nat) (st : State) :
    (calculateMaxMinLoop n st).minX = scanMin (fun i => (load st i).x) n st.minX ∧
    (calculateMaxMinLoop n st).maxX = scanMax (fun i => (load st i).x) n st.maxX ∧
    (calculateMaxMinLoop n st).minY = scanMin (fun i => (load st i).y) n st.minY ∧
    (calculateMaxMinLoop n st).maxY = scanMax (fun i => (load st i).y) n st.maxY ∧
    (calculateMaxMinLoop n st).minZ = scanMin (fun i => (load st i).z) n st.minZ ∧
    (calculateMaxMinLoop n st).maxZ = scanMax (fun i => (load st i).z) n st.maxZ := by
  induction n with
  | zero => simp [calculateMaxMinLoop, scanMin, scanMax]
  | succ n ih =>
    simp only [calculateMaxMinLoop, scanMin, scanMax]
    have hl : load (calculateMaxMinLoop n st) n = load st n :=
      load_congr _ _ (calculateMaxMinLoop_frame n st).2.2.2.2.2.2.2.2.1 n
    obtain ⟨h1, h2, h3, h4, h5, h6⟩ := calculateMaxMinBody_bounds (calculateMaxMinLoop n st) n
    obtain ⟨i1, i2, i3, i4, i5, i6⟩ := ih
    rw [hl] at h1 h2 h3 h4 h5 h6
    rw [i1] at h1
    rw [i2] at h2
    rw [i3] at h3
    rw [i4] at h4
    rw [i5] at h5
    rw [i6] at h6
    exact ⟨h1, h2, h3, h4, h5, h6⟩

theorem scanMin_congr (f g : Nat → ℚ) (n : Nat) (m : ℚ) (h : ∀ i, i < n → f i = g i) :
    scanMin f n m = scanMin g n m := by
  induction n with
  | zero => rfl
  | succ n ih =>
    simp only [scanMin]
    rw [ih (fun i hi => h i (by omega)), h n (by omega)]

theorem scanMax_congr (f g : Nat → ℚ) (n : Nat) (m : ℚ) (h : ∀ i, i < n → f i = g i) :
    scanMax f n m = scanMax g n m := by
  induction n with
  | zero => rfl
  | succ n ih =>
    simp only [scanMax]
    rw [ih (fun i hi => h i (by omega)), h n (by omega)]

theorem scanMin_le (f : Nat → ℚ) (n : Nat) (m : ℚ) :
    scanMin f n m ≤ m ∧ ∀ i, i < n → scanMin f n m ≤ f i := by
  induction n with
  | zero => exact ⟨le_refl _, fun i hi => absurd hi (Nat.not_lt_zero i)⟩
  | succ n ih =>
    simp only [scanMin]
    by_cases h : f n < scanMin f n m
    · rw [if_pos h]
      refine ⟨le_trans (le_of_lt h) ih.1, fun i hi => ?_⟩
      by_cases hin : i = n
      · rw [hin]
      · exact le_trans (le_of_lt h) (ih.2 i (by omega))
    · rw [if_neg h]
      refine ⟨ih.1, fun i hi => ?_⟩
      by_cases hin : i = n
      · rw [hin]; exact not_lt.mp h
      · exact ih.2 i (by omega)

theorem le_scanMax (f : Nat → ℚ) (n : Nat) (m : ℚ) :
    m ≤ scanMax f n m ∧ ∀ i, i < n → f i ≤ scanMax f n m := by
  induction n with
  | zero => exact ⟨le_refl _, fun i hi => absurd hi (Nat.not_lt_zero i)⟩
  | succ n ih =>
    simp only [scanMax]
    by_cases h : f n > scanMax f n m
    · rw [if_pos h]
      refine ⟨le_trans ih.1 (le_of_lt h), fun i hi => ?_⟩
      by_cases hin : i = n
      · rw [hin]
      · exact le_trans (ih.2 i (by omega)) (le_of_lt h)
    · rw [if_neg h]
      refine ⟨ih.1, fun i hi => ?_⟩
      by_cases hin : i = n
      · rw [hin]; exact not_lt.mp h
      · exact ih.2 i (by omega)

/-- Once some scanned value is below the start value, the running minimum is
one of the scanned values. -/
theorem scanMin_attained (f : Nat → ℚ) (n : Nat) (m : ℚ) (h0 : f 0 < m) (hn : 0 < n) :
    ∃ i, i < n ∧ f i = scanMin f n m := by
  induction n with
  | zero => exact absurd hn (Nat.lt_irrefl 0)
  | succ n ih =>
    simp only [scanMin]
    by_cases h : f n < scanMin f n m
    · rw [if_pos h]
      exact ⟨n, by omega, rfl⟩
    · rw [if_neg h]
      by_cases hn0 : n = 0
      · subst hn0
        exact absurd h0 h
      · obtain ⟨i, hi, he⟩ := ih (by omega)
        exact ⟨i, by omega, he⟩

/-- Once some scanned value is above the start value, the running maximum is
one of the scanned values. -/
theorem scanMax_attained (f : Nat → ℚ) (n : Nat) (m : ℚ) (h0 : f 0 > m) (hn : 0 < n) :
    ∃ i, i < n ∧ f i = scanMax f n m := by
  induction n with
  | zero => exact absurd hn (Nat.lt_irrefl 0)
  | succ n ih =>
    simp only [scanMax]
    by_cases h : f n > scanMax f n m
    · rw [if_pos h]
      exact ⟨n, by omega, rfl⟩
    · rw [if_neg h]
      by_cases hn0 : n = 0
      · subst hn0
        exact absurd h0 h
      · obtain ⟨i, hi, he⟩ := ih (by omega)
        exact ⟨i, by omega, he⟩

theorem scanMin_const (f : Nat → ℚ) (c : ℚ) (n : Nat) (m : ℚ) (hc : c < m) (hn : 0 < n)
    (h : ∀ i, i < n → f i = c) : scanMin f n m = c := by
  obtain ⟨i, hi, he⟩ := scanMin_attained f n m (by rw [h 0 hn]; exact hc) hn
  rw [← he, h i hi]

theorem scanMax_const (f : Nat → ℚ) (c : ℚ) (n : Nat) (m : ℚ) (hc : c > m) (hn : 0 < n)
    (h : ∀ i, i < n → f i = c) : scanMax f n m = c := by
  obtain ⟨i, hi, he⟩ := scanMax_attained f n m (by rw [h 0 hn]; exact hc) hn
  rw [← he, h i hi]

/-! ## `calculateMaxMin` and `lorenzEquation` as a whole -/

theorem capacity_eq : capacity = 100000 := rfl

theorem calculateMaxMin_frame (st : State) :
    (calculateMaxMin st).th = st.th ∧ (calculateMaxMin st).ph = st.ph ∧
    (calculateMaxMin st).axes = st.axes ∧
    (calculateMaxMin st).s = st.s ∧ (calculateMaxMin st).r = st.r ∧
    (calculateMaxMin st).b = st.b ∧
    (calculateMaxMin st).tick = st.tick ∧
    (calculateMaxMin st).direction = st.direction ∧
    (calculateMaxMin st).points = st.points ∧
    (calculateMaxMin st).oob = st.oob := by
  unfold calculateMaxMin
  exact calculateMaxMinLoop_frame 99999 _

theorem calculateMaxMin_scan (st : State) :
    (calculateMaxMin st).minX = scanMin (fun i => (load st i).x) 99999 99999 ∧
    (calculateMaxMin st).maxX = scanMax (fun i => (load st i).x) 99999 0 ∧
    (calculateMaxMin st).minY = scanMin (fun i => (load st i).y) 99999 99999 ∧
    (calculateMaxMin st).maxY = scanMax (fun i => (load st i).y) 99999 0 ∧
    (calculateMaxMin st).minZ = scanMin (fun i => (load st i).z) 99999 99999 ∧
    (calculateMaxMin st).maxZ = scanMax (fun i => (load st i).z) 99999 0 := by
  unfold calculateMaxMin
  exact calculateMaxMinLoop_scan 99999 _

/-- The bounds computed by `calculateMaxMin` depend only on rows
`0 .. 99998` of the buffer. -/
theorem calculateMaxMin_bounds_congr (a c : State)
    (h : ∀ i, i < 99999 → load a i = load c i) :
    bounds (calculateMaxMin a) = bounds (calculateMaxMin c) := by
  obtain ⟨a1, a2, a3, a4, a5, a6⟩ := calculateMaxMin_scan a
  obtain ⟨c1, c2, c3, c4, c5, c6⟩ := calculateMaxMin_scan c
  unfold bounds
  rw [a1, a2, a3, a4, a5, a6, c1, c2, c3, c4, c5, c6]
  rw [scanMin_congr _ _ 99999 99999 (fun i hi => congrArg Point.x (h i hi)),
    scanMax_congr _ _ 99999 0 (fun i hi => congrArg Point.x (h i hi)),
    scanMin_congr _ _ 99999 99999 (fun i hi => congrArg Point.y (h i hi)),
    scanMax_congr _ _ 99999 0 (fun i hi => congrArg Point.y (h i hi)),
    scanMin_congr _ _ 99999 99999 (fun i hi => congrArg Point.z (h i hi)),
    scanMax_congr _ _ 99999 0 (fun i hi => congrArg Point.z (h i hi))]

theorem calculateMaxMin_idem (st : State) :
    bounds (calculateMaxMin (calculateMaxMin st)) = bounds (calculateMaxMin st) :=
  calculateMaxMin_bounds_congr _ _
    (fun i _ => load_congr _ _ (calculateMaxMin_frame st).2.2.2.2.2.2.2.2.1 i)

theorem lorenzEquation_eq (s r b : ℚ) (st : State) :
    lorenzEquation s r b st = calculateMaxMin (lorenzLoop s r b 100000 (store st 0 seed)) :=
  rfl

theorem lorenzEquation_frame (s r b : ℚ) (st : State) :
    (lorenzEquation s r b st).th = st.th ∧ (lorenzEquation s r b st).ph = st.ph ∧
    (lorenzEquation s r b st).axes = st.axes ∧
    (lorenzEquation s r b st).s = st.s ∧ (lorenzEquation s r b st).r = st.r ∧
    (lorenzEquation s r b st).b = st.b ∧
    (lorenzEquation s r b st).tick = st.tick ∧
    (lorenzEquation s r b st).direction = st.direction := by
  rw [lorenzEquation_eq]
  obtain ⟨h1, h2, h3, h4, h5, h6, h7, h8, _, _⟩ :=
    calculateMaxMin_frame (lorenzLoop s r b 100000 (store st 0 seed))
  obtain ⟨i1, i2, i3, i4, i5, i6, i7, i8, _⟩ := lorenzLoop_frame s r b 100000 (store st 0 seed)
  obtain ⟨j1, j2, j3, j4, j5, j6, j7, j8, _⟩ := store_frame st 0 seed
  exact ⟨(h1.trans i1).trans j1, (h2.trans i2).trans j2, (h3.trans i3).trans j3,
    (h4.trans i4).trans j4, (h5.trans i5).trans j5, (h6.trans i6).trans j6,
    (h7.trans i7).trans j7, (h8.trans i8).trans j8⟩

/-- After `lorenzEquation(s, r, b)` every row `j` of the buffer holds the
`j`-th Euler iterate of the seed. -/
theorem lorenzEquation_load (s r b : ℚ) (st : State) (j : Nat) (hj : j < capacity) :
    load (lorenzEquation s r b st) j = orbit s r b j := by
  rw [lorenzEquation_eq,
    load_congr _ _ (calculateMaxMin_frame (lorenzLoop s r b 100000 (store st 0 seed))).2.2.2.2.2.2.2.2.1]
  have h0 : load (store st 0 seed) 0 = seed := by
    rw [load_store _ _ _ _ (by rw [capacity_eq]; omega), if_pos rfl]
  exact lorenzLoop_load s r b _ h0 100000 (le_of_eq capacity_eq.symm) j hj
    (by rw [capacity_eq] at hj; omega)

theorem lorenzEquation_oob (s r b : ℚ) (st : State) :
    (lorenzEquation s r b st).oob = st.oob ++ [100000] := by
  rw [lorenzEquation_eq, (calculateMaxMin_frame _).2.2.2.2.2.2.2.2.2]
  have h : lorenzLoop s r b 100000 (store st 0 seed) =
      store (lorenzLoop s r b 99999 (store st 0 seed)) (99999 + 1)
        (eulerStep s r b (load (lorenzLoop s r b 99999 (store st 0 seed)) 99999)) :=
    lorenzLoop_succ s r b 99999 (store st 0 seed)
  rw [h, store_oob_of_ge _ _ _ (by rw [capacity_eq]),
    lorenzLoop_oob s r b _ 99999 (by rw [capacity_eq]; omega),
    store_oob_of_lt _ _ _ (by rw [capacity_eq]; omega)]

/-- The buffer after `lorenzEquation(s, r, b)` does not depend on the state
it was run from. -/
theorem lorenzEquation_points_indep (s r b : ℚ) (a c : State) :
    (lorenzEquation s r b a).points = (lorenzEquation s r b c).points :=
  points_eq_of_load _ _ fun j hj => by
    rw [lorenzEquation_load s r b a j hj, lorenzEquation_load s r b c j hj]

theorem lorenzEquation_bounds (s r b : ℚ) (st : State) :
    bounds (lorenzEquation s r b st) = bounds (calculateMaxMin (lorenzEquation s r b st)) := by
  rw [lorenzEquation_eq]
  exact (calculateMaxMin_idem _).symm

theorem orbit_zero (s r b : ℚ) : orbit s r b 0 = seed := rfl

theorem orbit_succ (s r b : ℚ) (j : Nat) :
    orbit s r b (j + 1) = eulerStep s r b (orbit s r b j) := by
  simp only [orbit, Function.iterate_succ_apply']

theorem lorenzEquation_scan (s r b : ℚ) (st : State) :
    (lorenzEquation s r b st).minX =
      scanMin (fun i => (load (lorenzEquation s r b st) i).x) 99999 99999 ∧
    (lorenzEquation s r b st).maxX =
      scanMax (fun i => (load (lorenzEquation s r b st) i).x) 99999 0 ∧
    (lorenzEquation s r b st).minY =
      scanMin (fun i => (load (lorenzEquation s r b st) i).y) 99999 99999 ∧
    (lorenzEquation s r b st).maxY =
      scanMax (fun i => (load (lorenzEquation s r b st) i).y) 99999 0 ∧
    (lorenzEquation s r b st).minZ =
      scanMin (fun i => (load (lorenzEquation s r b st) i).z) 99999 99999 ∧
    (lorenzEquation s r b st).maxZ =
      scanMax (fun i => (load (lorenzEquation s r b st) i).z) 99999 0 := by
  have hb := lorenzEquation_bounds s r b st
  unfold bounds at hb
  simp only [Prod.mk.injEq] at hb
  obtain ⟨b1, b2, b3, b4, b5, b6⟩ := hb
  obtain ⟨c1, c2, c3, c4, c5, c6⟩ := calculateMaxMin_scan (lorenzEquation s r b st)
  exact ⟨b1.trans c1, b2.trans c2, b3.trans c3, b4.trans c4, b5.trans c5, b6.trans c6⟩

/-- One axis of the scan when the first scanned value is `0.01`. -/
theorem scan_axis (f : Nat → ℚ) (h0 : f 0 = 1 / 100) :
    scanMin f 99999 99999 ≤ scanMax f 99999 0 ∧
    (∃ i, i < 99999 ∧ f i = scanMin f 99999 99999) ∧
    (∃ i, i < 99999 ∧ f i = scanMax f 99999 0) := by
  refine ⟨le_trans ((scanMin_le f 99999 99999).2 0 (by omega))
      ((le_scanMax f 99999 0).2 0 (by omega)),
    scanMin_attained f 99999 99999 (by rw [h0]; norm_num) (by omega),
    scanMax_attained f 99999 0 (by rw [h0]; norm_num) (by omega)⟩

/-! ## Claims about the trajectory and its bounds -/

/-- C1: after `lorenzEquation(s, r, b)` row 0 of the buffer is the seed and, for
every `i < 99999`, row `i + 1` is the Euler step of row `i`; for the last
iteration `i = 99999` row `i` exists but the buffer has no row `i + 1 = 100000`
that could hold the step's result. -/
theorem lorenzEquation_trajectory (s r b : ℚ) (st : State) :
    row? (lorenzEquation s r b st) 0 = some seed ∧
    (∀ i, i < 99999 → ∃ p, row? (lorenzEquation s r b st) i = some p ∧
      row? (lorenzEquation s r b st) (i + 1) = some (eulerStep s r b p)) ∧
    (∃ p, row? (lorenzEquation s r b st) 99999 = some p) ∧
    row? (lorenzEquation s r b st) 100000 = none := by
  refine ⟨?_, ?_, ?_, ?_⟩
  · rw [row?_of_lt _ _ (by rw [capacity_eq]; omega),
      lorenzEquation_load _ _ _ _ _ (by rw [capacity_eq]; omega), orbit_zero]
  · intro i hi
    have h1 : i < capacity := by rw [capacity_eq]; omega
    have h2 : i + 1 < capacity := by rw [capacity_eq]; omega
    refine ⟨load (lorenzEquation s r b st) i, row?_of_lt _ _ h1, ?_⟩
    rw [row?_of_lt _ _ h2, lorenzEquation_load _ _ _ _ _ h2, lorenzEquation_load _ _ _ _ _ h1,
      orbit_succ]
  · exact ⟨_, row?_of_lt _ _ (by rw [capacity_eq]; omega)⟩
  · exact row?_of_ge _ _ (by rw [capacity_eq])

/-- C2: the loop of `lorenzEquation` stays inside the buffer for any bound
`n < capacity`, but with the bound 100000 of the source its last iteration
stores to row 100000, past the last row 99999 of the buffer. -/
theorem lorenzEquation_stores_past_buffer (s r b : ℚ) (st : State) :
    (∀ n, n < capacity → (lorenzLoop s r b n (store st 0 seed)).oob = st.oob) ∧
    (lorenzEquation s r b st).oob = st.oob ++ [100000] ∧
    ¬ (100000 ≤ capacity - 1) := by
  refine ⟨fun n hn => ?_, lorenzEquation_oob s r b st, by rw [capacity_eq]; omega⟩
  rw [lorenzLoop_oob s r b _ n hn, store_oob_of_lt _ _ _ (by rw [capacity_eq]; omega)]

/-- C3: `lorenzEquation` produces row 99999 (the Euler step of row 99998), yet
`calculateMaxMin` never reads it: whatever is stored in a row `i ≥ 99999`, the
six bounds come out the same. -/
theorem calculateMaxMin_skips_last_row (s r b : ℚ) (st : State) :
    (∃ q, row? (lorenzEquation s r b st) 99998 = some q ∧
      row? (lorenzEquation s r b st) 99999 = some (eulerStep s r b q)) ∧
    (∀ (a : State) (i : Nat) (p : Point), 99999 ≤ i →
      bounds (calculateMaxMin (store a i p)) = bounds (calculateMaxMin a)) ∧
    (∀ p : Point, bounds (calculateMaxMin (store (lorenzEquation s r b st) 99999 p)) =
      bounds (lorenzEquation s r b st)) := by
  have hskip : ∀ (a : State) (i : Nat) (p : Point), 99999 ≤ i →
      bounds (calculateMaxMin (store a i p)) = bounds (calculateMaxMin a) := by
    intro a i p hi
    refine calculateMaxMin_bounds_congr _ _ (fun j hj => ?_)
    rw [load_store _ _ _ _ (by rw [capacity_eq]; omega), if_neg (by omega)]
  refine ⟨?_, hskip, fun p => ?_⟩
  · have h1 : 99998 < capacity := by rw [capacity_eq]; omega
    have h2 : 99998 + 1 < capacity := by rw [capacity_eq]; omega
    refine ⟨load (lorenzEquation s r b st) 99998, row?_of_lt _ _ h1, ?_⟩
    show row? (lorenzEquation s r b st) (99998 + 1) = _
    rw [row?_of_lt _ _ h2, lorenzEquation_load _ _ _ _ _ h2, lorenzEquation_load _ _ _ _ _ h1,
      orbit_succ]
  · rw [hskip _ _ _ (le_refl _)]
    exact (lorenzEquation_bounds s r b st).symm

/-- C4: after `lorenzEquation(s, r, b)`, on each axis `min ≤ max`, and `min`
and `max` are each the coordinate of a row among the rows `0 .. 99998` that
`calculateMaxMin` scans. -/
theorem lorenzEquation_bounds_attained (s r b : ℚ) (st : State) :
    ((lorenzEquation s r b st).minX ≤ (lorenzEquation s r b st).maxX ∧
      (∃ i, i < 99999 ∧ (load (lorenzEquation s r b st) i).x = (lorenzEquation s r b st).minX) ∧
      (∃ i, i < 99999 ∧ (load (lorenzEquation s r b st) i).x = (lorenzEquation s r b st).maxX)) ∧
    ((lorenzEquation s r b st).minY ≤ (lorenzEquation s r b st).maxY ∧
      (∃ i, i < 99999 ∧ (load (lorenzEquation s r b st) i).y = (lorenzEquation s r b st).minY) ∧
      (∃ i, i < 99999 ∧ (load (lorenzEquation s r b st) i).y = (lorenzEquation s r b st).maxY)) ∧
    ((lorenzEquation s r b st).minZ ≤ (lorenzEquation s r b st).maxZ ∧
      (∃ i, i < 99999 ∧ (load (lorenzEquation s r b st) i).z = (lorenzEquation s r b st).minZ) ∧
      (∃ i, i < 99999 ∧ (load (lorenzEquation s r b st) i).z = (lorenzEquation s r b st).maxZ)) := by
  have h0 : load (lorenzEquation s r b st) 0 = seed := by
    rw [lorenzEquation_load _ _ _ _ _ (by rw [capacity_eq]; omega), orbit_zero]
  obtain ⟨c1, c2, c3, c4, c5, c6⟩ := lorenzEquation_scan s r b st
  have hx := scan_axis (fun i => (load (lorenzEquation s r b st) i).x)
    (by show (load (lorenzEquation s r b st) 0).x = 1 / 100; rw [h0]; rfl)
  have hy := scan_axis (fun i => (load (lorenzEquation s r b st) i).y)
    (by show (load (lorenzEquation s r b st) 0).y = 1 / 100; rw [h0]; rfl)
  have hz := scan_axis (fun i => (load (lorenzEquation s r b st) i).z)
    (by show (load (lorenzEquation s r b st) 0).z = 1 / 100; rw [h0]; rfl)
  rw [← c1, ← c2] at hx
  rw [← c3, ← c4] at hy
  rw [← c5, ← c6] at hz
  exact ⟨hx, hy, hz⟩

/-! ## Lockstep of parameters, trajectory and bounds -/

theorem InLockstep_lorenzEquation (s r b : ℚ) (a : State)
    (hs : a.s = s) (hr : a.r = r) (hb : a.b = b) : InLockstep (lorenzEquation s r b a) := by
  obtain ⟨_, _, _, f4, f5, f6, _, _⟩ := lorenzEquation_frame s r b a
  refine ⟨fun j hj => ?_, lorenzEquation_bounds s r b a⟩
  rw [f4, f5, f6, hs, hr, hb]
  exact lorenzEquation_load s r b a j hj

theorem InLockstep_recalculate (st : State) : InLockstep (recalculate st) :=
  InLockstep_lorenzEquation st.s st.r st.b st rfl rfl rfl

theorem InLockstep_of_same (a c : State) (hp : c.points = a.points) (hbd : bounds c = bounds a)
    (hs : c.s = a.s) (hr : c.r = a.r) (hb : c.b = a.b) (h : InLockstep a) : InLockstep c := by
  refine ⟨fun j hj => ?_, ?_⟩
  · rw [load_congr c a hp, hs, hr, hb]
    exact h.1 j hj
  · rw [hbd, h.2]
    exact calculateMaxMin_bounds_congr _ _ (fun i _ => (load_congr c a hp i).symm)

theorem special_same (k x y : Int) (st : State) :
    (special k x y st).points = st.points ∧ bounds (special k x y st) = bounds st ∧
    (special k x y st).s = st.s ∧ (special k x y st).r = st.r ∧
    (special k x y st).b = st.b := by
  simp only [special, bounds]
  split_ifs <;> exact ⟨rfl, rfl, rfl, rfl, rfl⟩

theorem idle_same (st : State) :
    (idle st).points = st.points ∧ bounds (idle st) = bounds st ∧
    (idle st).s = st.s ∧ (idle st).r = st.r ∧ (idle st).b = st.b := by
  unfold idle bounds
  by_cases h1 : st.tick > 50 <;> by_cases h2 : st.tick < -50 <;>
    by_cases h3 : st.direction = 0 <;> by_cases h4 : st.direction = 1 <;>
    simp [h1, h2, h3, h4]

/-- What `key` does, case by case. -/
theorem key_cases (ch : Char) (x y : Int) (st st' : State) (h : key ch x y st = some st') :
    (Event.changesParameters (Event.key ch x y) = true ∧ ∃ a, st' = recalculate a) ∨
    (Event.changesParameters (Event.key ch x y) = false ∧ st'.points = st.points ∧
      bounds st' = bounds st ∧ st'.s = st.s ∧ st'.r = st.r ∧ st'.b = st.b) := by
  unfold key at h
  have hcp : Event.changesParameters (Event.key ch x y) = true ↔
      (ch = 'S' ∨ ch = 's' ∨ ch = 'B' ∨ ch = 'b' ∨ ch = 'R' ∨ ch = 'r' ∨ ch = 'q') := by
    simp [Event.changesParameters, or_assoc]
  have hyes : ∀ a, st' = recalculate a →
      (ch = 'S' ∨ ch = 's' ∨ ch = 'B' ∨ ch = 'b' ∨ ch = 'R' ∨ ch = 'r' ∨ ch = 'q') →
      (Event.changesParameters (Event.key ch x y) = true ∧ ∃ a, st' = recalculate a) ∨
      (Event.changesParameters (Event.key ch x y) = false ∧ st'.points = st.points ∧
        bounds st' = bounds st ∧ st'.s = st.s ∧ st'.r = st.r ∧ st'.b = st.b) :=
    fun a ha hch => Or.inl ⟨hcp.mpr hch, a, ha⟩
  by_cases h0 : ch = Char.ofNat 27
  · rw [if_pos h0] at h
    exact absurd h (by simp)
  rw [if_neg h0] at h
  by_cases h1 : ch = 'S'
  · rw [if_pos h1] at h
    exact hyes _ (Option.some.inj h).symm (Or.inl h1)
  rw [if_neg h1] at h
  by_cases h2 : ch = 's'
  · rw [if_pos h2] at h
    exact hyes _ (Option.some.inj h).symm (Or.inr (Or.inl h2))
  rw [if_neg h2] at h
  by_cases h3 : ch = 'B'
  · rw [if_pos h3] at h
    exact hyes _ (Option.some.inj h).symm (Or.inr (Or.inr (Or.inl h3)))
  rw [if_neg h3] at h
  by_cases h4 : ch = 'b'
  · rw [if_pos h4] at h
    exact hyes _ (Option.some.inj h).symm (Or.inr (Or.inr (Or.inr (Or.inl h4))))
  rw [if_neg h4] at h
  by_cases h5 : ch = 'R'
  · rw [if_pos h5] at h
    exact hyes _ (Option.some.inj h).symm (Or.inr (Or.inr (Or.inr (Or.inr (Or.inl h5)))))
  rw [if_neg h5] at h
  by_cases h6 : ch = 'r'
  · rw [if_pos h6] at h
    exact hyes _ (Option.some.inj h).symm
      (Or.inr (Or.inr (Or.inr (Or.inr (Or.inr (Or.inl h6))))))
  rw [if_neg h6] at h
  by_cases h9 : ch = 'q'
  · have h7 : ¬ ch = 'a' := by rw [h9]; decide
    have h8 : ¬ ch = '0' := by rw [h9]; decide
    rw [if_neg h7, if_neg h8, if_pos h9] at h
    exact hyes _ (Option.some.inj h).symm
      (Or.inr (Or.inr (Or.inr (Or.inr (Or.inr (Or.inr h9))))))
  have hno : Event.changesParameters (Event.key ch x y) = false := by
    cases hc : Event.changesParameters (Event.key ch x y) with
    | false => rfl
    | true =>
      rcases hcp.mp hc with h | h | h | h | h | h | h
      · exact absurd h h1
      · exact absurd h h2
      · exact absurd h h3
      · exact absurd h h4
      · exact absurd h h5
      · exact absurd h h6
      · exact absurd h h9
  refine Or.inr ⟨hno, ?_⟩
  by_cases h7 : ch = 'a'
  · rw [if_pos h7] at h
    have := Option.some.inj h
    subst this
    exact ⟨rfl, rfl, rfl, rfl, rfl⟩
  rw [if_neg h7] at h
  by_cases h8 : ch = '0'
  · rw [if_pos h8] at h
    have := Option.some.inj h
    subst this
    exact ⟨rfl, rfl, rfl, rfl, rfl⟩
  rw [if_neg h8, if_neg h9] at h
  have := Option.some.inj h
  subst this
  exact ⟨rfl, rfl, rfl, rfl, rfl⟩

theorem step_InLockstep (st st' : State) (e : Event) (h : step st e = some st')
    (hinv : InLockstep st) : InLockstep st' := by
  cases e with
  | key ch x y =>
    rcases key_cases ch x y st st' h with ⟨_, a, ha⟩ | ⟨_, hp, hbd, hs, hr, hb⟩
    · rw [ha]; exact InLockstep_recalculate a
    · exact InLockstep_of_same st st' hp hbd hs hr hb hinv
  | special k x y =>
    have := Option.some.inj h
    subst this
    obtain ⟨hp, hbd, hs, hr, hb⟩ := special_same k x y st
    exact InLockstep_of_same st _ hp hbd hs hr hb hinv
  | idle =>
    have := Option.some.inj h
    subst this
    obtain ⟨hp, hbd, hs, hr, hb⟩ := idle_same st
    exact InLockstep_of_same st _ hp hbd hs hr hb hinv

theorem step_same (st st' : State) (e : Event) (h : step st e = some st')
    (hc : e.changesParameters = false) :
    st'.points = st.points ∧ bounds st' = bounds st ∧
      st'.s = st.s ∧ st'.r = st.r ∧ st'.b = st.b := by
  cases e with
  | key ch x y =>
    rcases key_cases ch x y st st' h with ⟨ht, _⟩ | ⟨_, hsame⟩
    · rw [hc] at ht; exact absurd ht (by decide)
    · exact hsame
  | special k x y =>
    have := Option.some.inj h
    subst this
    exact special_same k x y st
  | idle =>
    have := Option.some.inj h
    subst this
    exact idle_same st

theorem run_InLockstep (evs : List Event) (a st : State) (h : run a evs = some st)
    (hinv : InLockstep a) : InLockstep st := by
  induction evs generalizing a with
  | nil =>
    have := Option.some.inj h
    subst this
    exact hinv
  | cons e es ih =>
    simp only [run] at h
    cases hstep : step a e with
    | none => rw [hstep] at h; exact absurd h (by simp)
    | some a' =>
      rw [hstep] at h
      exact ih a' h (step_InLockstep a a' e hstep hinv)

theorem InLockstep_main : InLockstep main :=
  InLockstep_recalculate init

theorem recalculate_eq (a : State) : recalculate a = lorenzEquation a.s a.r a.b a :=
  rfl

theorem recalculate_s (a : State) : (recalculate a).s = a.s := by
  rw [recalculate_eq]
  exact (lorenzEquation_frame _ _ _ a).2.2.2.1

theorem recalculate_load (a : State) (s r b : ℚ) (hs : a.s = s) (hr : a.r = r) (hb : a.b = b)
    (j : Nat) (hj : j < capacity) : load (recalculate a) j = orbit s r b j := by
  rw [recalculate_eq, hs, hr, hb]
  exact lorenzEquation_load s r b a j hj

theorem recalculate_bounds (a : State) (s r b : ℚ) (hs : a.s = s) (hr : a.r = r) (hb : a.b = b)
    (c : State) : bounds (recalculate a) = bounds (lorenzEquation s r b c) := by
  rw [recalculate_eq, hs, hr, hb, lorenzEquation_bounds s r b a, lorenzEquation_bounds s r b c]
  refine calculateMaxMin_bounds_congr _ _ (fun i hi => ?_)
  have hj : i < capacity := by rw [capacity_eq]; omega
  rw [lorenzEquation_load _ _ _ _ i hj, lorenzEquation_load _ _ _ _ i hj]

theorem recalculate_r (a : State) : (recalculate a).r = a.r := by
  rw [recalculate_eq]
  exact (lorenzEquation_frame _ _ _ a).2.2.2.2.1

theorem recalculate_b (a : State) : (recalculate a).b = a.b := by
  rw [recalculate_eq]
  exact (lorenzEquation_frame _ _ _ a).2.2.2.2.2.1

/-- What `key` does on each of the seven keys that change a parameter: it
returns `recalculate` of a state holding the new parameters. -/
theorem key_table (x y : Int) (st : State) (ch : Char) (s' r' b' : ℚ)
    (hm : (ch, s', r', b') ∈
      [('S', st.s + 1, st.r, st.b), ('s', st.s - 1, st.r, st.b),
       ('B', st.s, st.r, st.b + 1), ('b', st.s, st.r, st.b - 1),
       ('R', st.s, st.r + 1, st.b), ('r', st.s, st.r - 1, st.b),
       ('q', 10, 28, 2667 / 1000)]) :
    ∃ c, key ch x y st = some (recalculate c) ∧ c.s = s' ∧ c.r = r' ∧ c.b = b' ∧
      Event.changesParameters (Event.key ch x y) = true := by
  simp only [List.mem_cons, Prod.mk.injEq, List.not_mem_nil, or_false] at hm
  rcases hm with ⟨rfl, rfl, rfl, rfl⟩ | ⟨rfl, rfl, rfl, rfl⟩ | ⟨rfl, rfl, rfl, rfl⟩ |
    ⟨rfl, rfl, rfl, rfl⟩ | ⟨rfl, rfl, rfl, rfl⟩ | ⟨rfl, rfl, rfl, rfl⟩ | ⟨rfl, rfl, rfl, rfl⟩
  · unfold key
    rw [if_neg (by decide), if_pos rfl]
    exact ⟨_, rfl, rfl, rfl, rfl, rfl⟩
  · unfold key
    rw [if_neg (by decide), if_neg (by decide), if_pos rfl]
    exact ⟨_, rfl, rfl, rfl, rfl, rfl⟩
  · unfold key
    rw [if_neg (by decide), if_neg (by decide), if_neg (by decide), if_pos rfl]
    exact ⟨_, rfl, rfl, rfl, rfl, rfl⟩
  · unfold key
    rw [if_neg (by decide), if_neg (by decide), if_neg (by decide), if_neg (by decide),
      if_pos rfl]
    exact ⟨_, rfl, rfl, rfl, rfl, rfl⟩
  · unfold key
    rw [if_neg (by decide), if_neg (by decide), if_neg (by decide), if_neg (by decide),
      if_neg (by decide), if_pos rfl]
    exact ⟨_, rfl, rfl, rfl, rfl, rfl⟩
  · unfold key
    rw [if_neg (by decide), if_neg (by decide), if_neg (by decide), if_neg (by decide),
      if_neg (by decide), if_neg (by decide), if_pos rfl]
    exact ⟨_, rfl, rfl, rfl, rfl, rfl⟩
  · unfold key
    rw [if_neg (by decide), if_neg (by decide), if_neg (by decide), if_neg (by decide),
      if_neg (by decide), if_neg (by decide), if_neg (by decide), if_neg (by decide),
      if_neg (by decide), if_pos rfl]
    exact ⟨_, rfl, rfl, rfl, rfl, rfl⟩

/-- The state `recalculate` returns: the parameters it was given, with the
buffer and the bounds of `lorenzEquation` on them. -/
theorem recalculate_spec (c : State) (s' r' b' : ℚ) (hs : c.s = s') (hr : c.r = r')
    (hb : c.b = b') :
    (recalculate c).s = s' ∧ (recalculate c).r = r' ∧ (recalculate c).b = b' ∧
    ∀ a : State, (recalculate c).points = (lorenzEquation s' r' b' a).points ∧
      bounds (recalculate c) = bounds (lorenzEquation s' r' b' a) := by
  refine ⟨(recalculate_s c).trans hs, (recalculate_r c).trans hr, (recalculate_b c).trans hb,
    fun a => ⟨points_eq_of_load _ _ (fun j hj => ?_), recalculate_bounds c _ _ _ hs hr hb a⟩⟩
  rw [recalculate_load c _ _ _ hs hr hb j hj, lorenzEquation_load _ _ _ _ j hj]

theorem main_parameters : main.s = -2 ∧ main.r = 35 ∧ main.b = 2667 / 1000 := by
  obtain ⟨_, _, _, f4, f5, f6, _, _⟩ := lorenzEquation_frame init.s init.r init.b init
  exact ⟨f4, f5, f6⟩

/-- C7: in every state reached from program start by a finite sequence of
key, special and idle events, the buffer is the one `lorenzEquation` computes
for the current `(s, r, b)` and the six bounds are those `calculateMaxMin`
computes from that buffer.  From such a state each of the keys S, s, B, b, R,
r changes its parameter by one, q sets `(10, 28, 2.667)`, and the new state
holds the buffer and the bounds of `lorenzEquation` on the new parameters;
every other event leaves buffer, bounds and parameters unchanged. -/
theorem reachable_in_lockstep (evs : List Event) (st : State) (h : run main evs = some st) :
    (∀ a : State, st.points = (lorenzEquation st.s st.r st.b a).points ∧
      bounds st = bounds (lorenzEquation st.s st.r st.b a)) ∧
    bounds st = bounds (calculateMaxMin st) ∧
    (∀ (ch : Char) (s' r' b' : ℚ),
      (ch, s', r', b') ∈
        [('S', st.s + 1, st.r, st.b), ('s', st.s - 1, st.r, st.b),
         ('B', st.s, st.r, st.b + 1), ('b', st.s, st.r, st.b - 1),
         ('R', st.s, st.r + 1, st.b), ('r', st.s, st.r - 1, st.b),
         ('q', 10, 28, 2667 / 1000)] →
      ∀ x y : Int, ∃ st', step st (Event.key ch x y) = some st' ∧
        Event.changesParameters (Event.key ch x y) = true ∧
        st'.s = s' ∧ st'.r = r' ∧ st'.b = b' ∧
        (∀ a : State, st'.points = (lorenzEquation s' r' b' a).points ∧
          bounds st' = bounds (lorenzEquation s' r' b' a)) ∧
        bounds st' = bounds (calculateMaxMin st')) ∧
    (∀ (e : Event) (st' : State), step st e = some st' → e.changesParameters = false →
      st'.points = st.points ∧ bounds st' = bounds st ∧
        st'.s = st.s ∧ st'.r = st.r ∧ st'.b = st.b) := by
  have hinv := run_InLockstep evs main st h InLockstep_main
  refine ⟨fun a => ?_, hinv.2, fun ch s' r' b' hm x y => ?_,
    fun e st' hs hc => step_same st st' e hs hc⟩
  · have hl : ∀ j, j < capacity → load st j = load (lorenzEquation st.s st.r st.b a) j :=
      fun j hj => by rw [hinv.1 j hj, lorenzEquation_load _ _ _ _ j hj]
    refine ⟨points_eq_of_load _ _ hl, ?_⟩
    rw [hinv.2, lorenzEquation_bounds]
    exact calculateMaxMin_bounds_congr _ _ (fun i hi => hl i (by rw [capacity_eq]; omega))
  · obtain ⟨c, hk, hs, hr, hb, hcp⟩ := key_table x y st ch s' r' b' hm
    obtain ⟨e1, e2, e3, e4⟩ := recalculate_spec c s' r' b' hs hr hb
    exact ⟨recalculate c, hk, hcp, e1, e2, e3, e4, (InLockstep_recalculate c).2⟩

theorem run_cons_some (a a' : State) (e : Event) (es : List Event) (h : step a e = some a') :
    run a (e :: es) = run a' es := by
  show (step a e).bind (fun st => run st es) = run a' es
  rw [h]
  rfl

theorem step_idle (a : State) : step a Event.idle = some (idle a) :=
  rfl

theorem step_special (a : State) (k x y : Int) :
    step a (Event.special k x y) = some (special k x y a) :=
  rfl

theorem step_key (a : State) (ch : Char) (x y : Int) :
    step a (Event.key ch x y) = key ch x y a :=
  rfl

/-- The run idle, S, right arrow, R from any state: `s` and `r` are each
raised by one. -/
theorem run_sample_from (a : State) :
    ∃ st, run a [Event.idle, Event.key 'S' 0 0, Event.special GLUT_KEY_RIGHT 0 0,
        Event.key 'R' 0 0] = some st ∧ st.s = a.s + 1 ∧ st.r = a.r + 1 ∧ st.b = a.b := by
  obtain ⟨i1, i2, i3⟩ := (idle_same a).2.2
  obtain ⟨c1, hk1, hs1, hr1, hb1, _⟩ := key_table 0 0 (idle a) 'S' _ _ _
    (List.mem_cons_self _ _)
  obtain ⟨p1, p2, p3⟩ := (special_same GLUT_KEY_RIGHT 0 0 (recalculate c1)).2.2
  obtain ⟨c2, hk2, hs2, hr2, hb2, _⟩ :=
    key_table 0 0 (special GLUT_KEY_RIGHT 0 0 (recalculate c1)) 'R'
      (special GLUT_KEY_RIGHT 0 0 (recalculate c1)).s
      ((special GLUT_KEY_RIGHT 0 0 (recalculate c1)).r + 1)
      (special GLUT_KEY_RIGHT 0 0 (recalculate c1)).b
      (by simp only [List.mem_cons, Prod.mk.injEq, true_and, and_self, or_true, true_or])
  refine ⟨recalculate c2, ?_, ?_, ?_, ?_⟩
  · rw [run_cons_some _ _ _ _ (step_idle a),
      run_cons_some _ _ _ _ ((step_key _ _ _ _).trans hk1),
      run_cons_some _ _ _ _ (step_special _ _ _ _),
      run_cons_some _ _ _ _ ((step_key _ _ _ _).trans hk2)]
    rfl
  · rw [recalculate_s, hs2, p1, recalculate_s, hs1, i1]
  · rw [recalculate_r, hr2, p2, recalculate_r, hr1, i2]
  · rw [recalculate_b, hb2, p3, recalculate_b, hb1, i3]

/-- The run used in the witness for C7: idle, S, right arrow, R from program
start ends with `s = -1` and `r = 36`. -/
theorem run_sample :
    ∃ st, run main [Event.idle, Event.key 'S' 0 0, Event.special GLUT_KEY_RIGHT 0 0,
        Event.key 'R' 0 0] = some st ∧ st.s = -1 ∧ st.r = 36 ∧ st.b = 2667 / 1000 := by
  obtain ⟨m1, m2, m3⟩ := main_parameters
  obtain ⟨st, hrun, hs, hr, hb⟩ := run_sample_from main
  refine ⟨st, hrun, ?_, ?_, ?_⟩
  · rw [hs, m1]; norm_num
  · rw [hr, m2]; norm_num
  · rw [hb, m3]

/-- Witness for C7: the state after idle, S, right arrow, R from program
start, where `s = -1` and `r = 36`. -/
theorem reachable_in_lockstep_witness :
    ∃ st, run main [Event.idle, Event.key 'S' 0 0, Event.special GLUT_KEY_RIGHT 0 0,
        Event.key 'R' 0 0] = some st ∧ (st.s = -1 ∧ st.r = 36 ∧ st.b = 2667 / 1000) ∧
    ((∀ a : State, st.points = (lorenzEquation st.s st.r st.b a).points ∧
      bounds st = bounds (lorenzEquation st.s st.r st.b a)) ∧
    bounds st = bounds (calculateMaxMin st) ∧
    (∀ (ch : Char) (s' r' b' : ℚ),
      (ch, s', r', b') ∈
        [('S', st.s + 1, st.r, st.b), ('s', st.s - 1, st.r, st.b),
         ('B', st.s, st.r, st.b + 1), ('b', st.s, st.r, st.b - 1),
         ('R', st.s, st.r + 1, st.b), ('r', st.s, st.r - 1, st.b),
         ('q', 10, 28, 2667 / 1000)] →
      ∀ x y : Int, ∃ st', step st (Event.key ch x y) = some st' ∧
        Event.changesParameters (Event.key ch x y) = true ∧
        st'.s = s' ∧ st'.r = r' ∧ st'.b = b' ∧
        (∀ a : State, st'.points = (lorenzEquation s' r' b' a).points ∧
          bounds st' = bounds (lorenzEquation s' r' b' a)) ∧
        bounds st' = bounds (calculateMaxMin st')) ∧
    (∀ (e : Event) (st' : State), step st e = some st' → e.changesParameters = false →
      st'.points = st.points ∧ bounds st' = bounds st ∧
        st'.s = st.s ∧ st'.r = st.r ∧ st'.b = st.b)) := by
  obtain ⟨st, hrun, hp⟩ := run_sample
  exact ⟨st, hrun, hp, reachable_in_lockstep _ st hrun⟩

/-! ## Reset, the first step, and the colour map -/

theorem key_q (x y : Int) (st : State) :
    ∃ a, key 'q' x y st = some (recalculate a) ∧ a.s = 10 ∧ a.r = 28 ∧ a.b = 2667 / 1000 := by
  unfold key
  rw [if_neg (by decide), if_neg (by decide), if_neg (by decide), if_neg (by decide),
    if_neg (by decide), if_neg (by decide), if_neg (by decide), if_neg (by decide),
    if_neg (by decide), if_pos rfl]
  exact ⟨_, rfl, rfl, rfl, rfl⟩

theorem key_S (x y : Int) (st : State) :
    key 'S' x y st = some (recalculate { st with s := st.s + 1 }) :=
  rfl

theorem run_S_S (a : State) :
    ∃ c, run a [Event.key 'S' 0 0, Event.key 'S' 0 0] = some (recalculate c) ∧
      c.s = a.s + 1 + 1 := by
  refine ⟨_, by simp only [run, step, key_S, Option.some_bind]; rfl, ?_⟩
  show (recalculate { a with s := a.s + 1 }).s + 1 = a.s + 1 + 1
  rw [recalculate_s]

/-- C8: from every state the key `q` leaves `(s, r, b) = (10, 28, 2.667)` and
re-integrates: the buffer is the one `lorenzEquation(10, 28, 2.667)` computes
and its row 0 is the seed `(0.01, 0.01, 0.01)`.  The start-up parameters are
`(-2, 35, 2.667)`, which differ. -/
theorem key_q_resets_parameters (x y : Int) (st : State) :
    ∃ st', key 'q' x y st = some st' ∧
      st'.s = 10 ∧ st'.r = 28 ∧ st'.b = 2667 / 1000 ∧
      st'.points = (lorenzEquation 10 28 (2667 / 1000) st).points ∧
      bounds st' = bounds (lorenzEquation 10 28 (2667 / 1000) st) ∧
      row? st' 0 = some ⟨1 / 100, 1 / 100, 1 / 100⟩ ∧
      (main.s, main.r, main.b) = (-2, 35, 2667 / 1000) ∧
      (main.s, main.r, main.b) ≠ (10, 28, 2667 / 1000) := by
  obtain ⟨a, hk, hs, hr, hb⟩ := key_q x y st
  obtain ⟨m1, m2, m3⟩ := main_parameters
  have hl : ∀ j, j < capacity →
      load (recalculate a) j = load (lorenzEquation 10 28 (2667 / 1000) st) j := fun j hj => by
    rw [recalculate_load a _ _ _ hs hr hb j hj, lorenzEquation_load _ _ _ _ j hj]
  have hs' : (recalculate a).s = 10 := by rw [recalculate_s, hs]
  have hr' : (recalculate a).r = 28 := by
    rw [recalculate_eq]
    exact ((lorenzEquation_frame _ _ _ a).2.2.2.2.1).trans hr
  have hb' : (recalculate a).b = 2667 / 1000 := by
    rw [recalculate_eq]
    exact ((lorenzEquation_frame _ _ _ a).2.2.2.2.2.1).trans hb
  refine ⟨recalculate a, hk, hs', hr', hb', points_eq_of_load _ _ hl,
    recalculate_bounds a _ _ _ hs hr hb st, ?_, ?_, ?_⟩
  · rw [row?_of_lt _ _ (by rw [capacity_eq]; omega), hl 0 (by rw [capacity_eq]; omega),
      lorenzEquation_load _ _ _ _ _ (by rw [capacity_eq]; omega), orbit_zero]
    rfl
  · rw [m1, m2, m3]
  · rw [m1, m2, m3]
    intro h
    have := (Prod.mk.inj h).1
    norm_num at this

/-- C9 (as amended): after `lorenzEquation(10, 28, 2.667)`, from any state, row 1
of the buffer is exactly `(0.01, 0.0102699, 0.00997343)`, which is within
`10^-6` of `(0.01, 0.0102699, 0.009973341)` in each coordinate. -/
theorem point_one_value (st : State) :
    row? (lorenzEquation 10 28 (2667 / 1000) st) 1 =
      some ⟨1 / 100, 102699 / 10000000, 997343 / 100000000⟩ ∧
    |(load (lorenzEquation 10 28 (2667 / 1000) st) 1).x - 1 / 100| ≤ 1 / 1000000 ∧
    |(load (lorenzEquation 10 28 (2667 / 1000) st) 1).y - 102699 / 10000000| ≤ 1 / 1000000 ∧
    |(load (lorenzEquation 10 28 (2667 / 1000) st) 1).z - 9973341 / 1000000000| ≤
      1 / 1000000 := by
  have h1 : load (lorenzEquation 10 28 (2667 / 1000) st) 1 =
      ⟨1 / 100, 102699 / 10000000, 997343 / 100000000⟩ := by
    rw [lorenzEquation_load _ _ _ _ _ (by rw [capacity_eq]; omega)]
    show orbit 10 28 (2667 / 1000) (0 + 1) = _
    rw [orbit_succ, orbit_zero]
    simp only [eulerStep, seed, dt, Point.mk.injEq]
    norm_num
  refine ⟨?_, ?_, ?_, ?_⟩
  · rw [row?_of_lt _ _ (by rw [capacity_eq]; omega), h1]
  · rw [h1]; norm_num [abs_le]
  · rw [h1]; norm_num [abs_le]
  · rw [h1]; norm_num [abs_le]

/-- C9 (as stated) fails: with `(10, 28, 2.667)` from the initial globals the
`y` coordinate of row 1 is `0.0102699`, more than `10^-6` away from
`0.0127899`. -/
theorem point_one_y_differs :
    (load (lorenzEquation 10 28 (2667 / 1000) init) 1).y = 102699 / 10000000 ∧
    ¬ (|(load (lorenzEquation 10 28 (2667 / 1000) init) 1).y - 127899 / 10000000| ≤
      1 / 1000000) := by
  have h1 : load (lorenzEquation 10 28 (2667 / 1000) init) 1 =
      ⟨1 / 100, 102699 / 10000000, 997343 / 100000000⟩ := by
    rw [lorenzEquation_load _ _ _ _ _ (by rw [capacity_eq]; omega)]
    show orbit 10 28 (2667 / 1000) (0 + 1) = _
    rw [orbit_succ, orbit_zero]
    simp only [eulerStep, seed, dt, Point.mk.injEq]
    norm_num
  rw [h1]
  refine ⟨rfl, ?_⟩
  norm_num [abs_le]

theorem normalizeColor_red_of_eq (st : State) (x y z tick : ℚ) (h : st.maxX = st.minX) :
    (normalizeColor st x y z tick).1 = none := by
  simp [normalizeColor, fdiv, h]

theorem normalizeColor_green_of_eq (st : State) (x y z tick : ℚ) (h : st.maxY = st.minY) :
    (normalizeColor st x y z tick).2.1 = none := by
  simp [normalizeColor, fdiv, h]

theorem normalizeColor_blue_of_eq (st : State) (x y z tick : ℚ) (h : st.maxZ = st.minZ) :
    (normalizeColor st x y z tick).2.2 = none := by
  simp [normalizeColor, fdiv, h]

theorem orbit_x_of_sigma_zero (r b : ℚ) (j : Nat) : (orbit 0 r b j).x = 1 / 100 := by
  induction j with
  | zero => rfl
  | succ j ih =>
    rw [orbit_succ]
    simp only [eulerStep]
    rw [ih]
    ring

theorem lorenzEquation_sigma_zero (r b : ℚ) (st : State) :
    (lorenzEquation 0 r b st).minX = 1 / 100 ∧ (lorenzEquation 0 r b st).maxX = 1 / 100 := by
  obtain ⟨c1, c2, _⟩ := lorenzEquation_scan 0 r b st
  have hx : ∀ i, i < 99999 → (load (lorenzEquation 0 r b st) i).x = 1 / 100 := fun i hi => by
    rw [lorenzEquation_load _ _ _ _ _ (by rw [capacity_eq]; omega)]
    exact orbit_x_of_sigma_zero r b i
  rw [c1, c2]
  exact ⟨scanMin_const _ _ 99999 99999 (by norm_num) (by omega) hx,
    scanMax_const _ _ 99999 0 (by norm_num) (by omega) hx⟩

/-- C6 (as amended): `normalizeColor` applies no fallback.  For every point,
bounds and tick, whenever `max = min` on an axis it evaluates
`(value - min) / (max - min)` with a zero divisor on that channel; this is the
case on the `x` axis after `lorenzEquation(0, r, b)` for every `r` and `b`,
where `maxX = minX`. -/
theorem normalizeColor_no_fallback (st : State) (x y z tick : ℚ) :
    (st.maxX = st.minX → (normalizeColor st x y z tick).1 = none) ∧
    (st.maxY = st.minY → (normalizeColor st x y z tick).2.1 = none) ∧
    (st.maxZ = st.minZ → (normalizeColor st x y z tick).2.2 = none) ∧
    (∀ r b : ℚ, (lorenzEquation 0 r b st).maxX = (lorenzEquation 0 r b st).minX ∧
      (normalizeColor (lorenzEquation 0 r b st) x y z tick).1 = none) := by
  refine ⟨normalizeColor_red_of_eq st x y z tick, normalizeColor_green_of_eq st x y z tick,
    normalizeColor_blue_of_eq st x y z tick, fun r b => ?_⟩
  have hb : (lorenzEquation 0 r b st).maxX = (lorenzEquation 0 r b st).minX := by
    rw [(lorenzEquation_sigma_zero r b st).1, (lorenzEquation_sigma_zero r b st).2]
  exact ⟨hb, normalizeColor_red_of_eq _ x y z tick hb⟩

/-- C6 (as stated) fails: pressing `S` twice after start-up gives `s = 0`, the
`x` coordinate stays `0.01`, so `maxX = minX`, and `normalizeColor` on row 0
divides by zero in the red channel. -/
theorem normalizeColor_divides_by_zero :
    ∃ st, run main [Event.key 'S' 0 0, Event.key 'S' 0 0] = some st ∧
      st.s = 0 ∧ st.maxX = st.minX ∧
      (normalizeColor st (load st 0).x (load st 0).y (load st 0).z st.tick).1 = none := by
  obtain ⟨c, hrun, hc⟩ := run_S_S main
  have hc0 : c.s = 0 := by rw [hc, main_parameters.1]; norm_num
  have hb : (recalculate c).maxX = (recalculate c).minX := by
    rw [recalculate_eq, hc0, (lorenzEquation_sigma_zero _ _ _).1,
      (lorenzEquation_sigma_zero _ _ _).2]
  refine ⟨recalculate c, hrun, by rw [recalculate_s, hc0], hb, ?_⟩
  exact normalizeColor_red_of_eq _ _ _ _ _ hb

end Lorenz
